import Mathlib

/-!
Shallow embedding of the core metadata engine of the thin-provisioning
toolkit: the little-endian codecs for the space-map on-disk records
(`SMRoot`, `IndexEntry`, `BitmapHeader`, `Bitmap`), the in-core space map
(`CoreSpaceMap` and the width-dispatching constructor `core_sm`), the
metadata generator entry points (`set_needs_check`, engine selection), the
`thin_generate_damage` argument validation, and the dump/restore pipeline.

Byte buffers are `List Nat` (each element one byte); machine integers are
`Nat`. Fallible Rust code (`Result`, `nom` parsers) returns `Option` or
`Except`; a Rust panic (out-of-bounds vector indexing, refcount underflow)
is modelled as `none`, since a panicking execution has no observable
after-state.
-/

/-! ## Little-endian codecs (src/pdata/space_map.rs, nom primitives) -/

/-- Value of a byte list read as a little-endian integer
(first byte is least significant). -/
def leNum (bytes : List Nat) : Nat :=
  bytes.foldr (fun b acc => b + 256 * acc) 0

/-- Embeds nom `le_u32`: consume 4 bytes, return their little-endian value
and the remaining input; fail on short input. -/
def le_u32 (data : List Nat) : Option (Nat × List Nat) :=
  if 4 ≤ data.length then some (leNum (data.take 4), data.drop 4) else none

/-- Embeds nom `le_u64`: consume 8 bytes, return their little-endian value
and the remaining input; fail on short input. -/
def le_u64 (data : List Nat) : Option (Nat × List Nat) :=
  if 8 ≤ data.length then some (leNum (data.take 8), data.drop 8) else none

/-! ## Space-map root (src/pdata/space_map.rs, SMRoot) -/

/-- Embeds `struct SMRoot`. -/
structure SMRoot where
  nr_blocks : Nat
  nr_allocated : Nat
  bitmap_root : Nat
  ref_count_root : Nat
deriving DecidableEq, Repr

/-- Embeds `SMRoot::unpack`: four successive `le_u64` reads. -/
def SMRoot.unpack (data : List Nat) : Option (SMRoot × List Nat) :=
  match le_u64 data with
  | none => none
  | some (nr_blocks, i1) =>
    match le_u64 i1 with
    | none => none
    | some (nr_allocated, i2) =>
      match le_u64 i2 with
      | none => none
      | some (bitmap_root, i3) =>
        match le_u64 i3 with
        | none => none
        | some (ref_count_root, i4) =>
          some (⟨nr_blocks, nr_allocated, bitmap_root, ref_count_root⟩, i4)

/-- Embeds `unpack_root`: run `SMRoot::unpack`, map a parse failure to an
error value and discard the remaining input on success. -/
def unpack_root (data : List Nat) : Except String SMRoot :=
  match SMRoot.unpack data with
  | none => Except.error "could not parse SMRoot"
  | some (v, _i) => Except.ok v

/-! ## Index entry (src/pdata/space_map.rs, IndexEntry) -/

/-- Embeds `struct IndexEntry`. -/
structure IndexEntry where
  blocknr : Nat
  nr_free : Nat
  none_free_before : Nat
deriving DecidableEq, Repr

/-- Embeds `IndexEntry::unpack`: `le_u64`, `le_u32`, `le_u32`. -/
def IndexEntry.unpack (data : List Nat) : Option (IndexEntry × List Nat) :=
  match le_u64 data with
  | none => none
  | some (blocknr, i1) =>
    match le_u32 i1 with
    | none => none
    | some (nr_free, i2) =>
      match le_u32 i2 with
      | none => none
      | some (none_free_before, i3) =>
        some (⟨blocknr, nr_free, none_free_before⟩, i3)

/-! ## Bitmap block (src/pdata/space_map.rs, Bitmap) -/

/-- Block size in bytes (BLOCK_SIZE from the block manager). -/
def BLOCK_SIZE : Nat := 4096

/-- Embeds `struct BitmapHeader`. -/
structure BitmapHeader where
  csum : Nat
  not_used : Nat
  blocknr : Nat
deriving DecidableEq, Repr

/-- Embeds `BitmapHeader::unpack`: `le_u32`, `le_u32`, `le_u64`;
`disk_size` is 16 bytes. -/
def BitmapHeader.unpack (data : List Nat) : Option (BitmapHeader × List Nat) :=
  match le_u32 data with
  | none => none
  | some (csum, i1) =>
    match le_u32 i1 with
    | none => none
    | some (not_used, i2) =>
      match le_u64 i2 with
      | none => none
      | some (blocknr, i3) =>
        some (⟨csum, not_used, blocknr⟩, i3)

/-- Embeds `enum BitmapEntry`. -/
inductive BitmapEntry where
  | Small (v : Nat)
  | Overflow
deriving DecidableEq, Repr

/-- Embeds the inner loop of `Bitmap::unpack`: peel `k` two-bit values off
a 64-bit word, least-significant bits first (`val = word AND 3;
word = word SHR 2`); values below 3 are `Small`, value 3 is `Overflow`. -/
def decodeWordEntries (word : Nat) : Nat → List BitmapEntry
  | 0 => []
  | k + 1 =>
    (if word % 4 < 3 then BitmapEntry.Small (word % 4) else BitmapEntry.Overflow)
      :: decodeWordEntries (word / 4) k

/-- Embeds the outer loop of `Bitmap::unpack`: read `w` little-endian
64-bit words, appending the 32 two-bit entries of each to the accumulator. -/
def unpackWords (data : List Nat) (acc : List BitmapEntry) :
    Nat → Option (List BitmapEntry × List Nat)
  | 0 => some (acc, data)
  | w + 1 =>
    match le_u64 data with
    | none => none
    | some (word, rest) => unpackWords rest (acc ++ decodeWordEntries word 32) w

/-- Embeds `struct Bitmap`. -/
structure Bitmap where
  header : BitmapHeader
  entries : List BitmapEntry
deriving DecidableEq, Repr

/-- Number of 64-bit words in a bitmap block:
`(BLOCK_SIZE - BitmapHeader::disk_size()) / 8`. -/
def bitmapNrWords : Nat := (BLOCK_SIZE - 16) / 8

/-- Embeds `Bitmap::unpack`: a 16-byte header followed by
`bitmapNrWords` words of 32 two-bit entries each. -/
def Bitmap.unpack (data : List Nat) : Option (Bitmap × List Nat) :=
  match BitmapHeader.unpack data with
  | none => none
  | some (header, i) =>
    match unpackWords i [] bitmapNrWords with
    | none => none
    | some (entries, rest) => some (⟨header, entries⟩, rest)

/-! ## In-core space map (src/pdata/space_map.rs, trait SpaceMap and
CoreSpaceMap) -/

/-- Names of the operations declared by `trait SpaceMap` in the source
(lines 153-156): exactly `get` and `inc`. -/
def spaceMapTraitOps : List String := ["get", "inc"]

/-- Embeds `struct CoreSpaceMap`: a vector of reference counts. The
element width (u8/u16/u32 in the source) is abstracted to `Nat`;
the width tag is carried by `SmVariant` below. -/
structure CoreSpaceMap where
  counts : List Nat
deriving DecidableEq, Repr

/-- Embeds `CoreSpaceMap::new`: `nr_entries` default (zero) counts. -/
def CoreSpaceMap.new (nr_entries : Nat) : CoreSpaceMap :=
  ⟨List.replicate nr_entries 0⟩

/-- Embeds `CoreSpaceMap::get`: `Ok(self.counts[b].into())`; the vector
index panics when `b` is out of bounds, modelled as `none`. -/
def CoreSpaceMap.get (sm : CoreSpaceMap) (b : Nat) : Option Nat :=
  sm.counts[b]?

/-- One iteration of the `CoreSpaceMap::inc` loop body:
`self.counts[b] += 1`, panicking (`none`) on an out-of-bounds index. -/
def CoreSpaceMap.incOne (sm : CoreSpaceMap) (b : Nat) : Option CoreSpaceMap :=
  match sm.counts[b]? with
  | none => none
  | some c => some ⟨sm.counts.set b (c + 1)⟩

/-- The `for b in begin..(begin + len)` loop of `CoreSpaceMap::inc`,
recursing on the number of remaining iterations. -/
def CoreSpaceMap.incFrom (sm : CoreSpaceMap) (b : Nat) : Nat → Option CoreSpaceMap
  | 0 => some sm
  | len + 1 =>
    match sm.incOne b with
    | none => none
    | some sm2 => sm2.incFrom (b + 1) len

/-- Embeds `CoreSpaceMap::inc` over the range `begin..(begin + len)`. -/
def CoreSpaceMap.inc (sm : CoreSpaceMap) (b len : Nat) : Option CoreSpaceMap :=
  sm.incFrom b len

/-- Tagged variant returned by `core_sm`: the element width chosen from
`max_count` (`CoreSpaceMap::<u8>`, `::<u16>` or `::<u32>`). -/
inductive SmVariant where
  | smU8 (sm : CoreSpaceMap)
  | smU16 (sm : CoreSpaceMap)
  | smU32 (sm : CoreSpaceMap)
deriving DecidableEq, Repr

/-- Embeds `core_sm`: pick the narrowest element width that can hold
`max_count` (`u8` up to 255, `u16` up to 65535, else `u32`). -/
def core_sm (nr_entries : Nat) (max_count : Nat) : SmVariant :=
  if max_count ≤ 255 then SmVariant.smU8 (CoreSpaceMap.new nr_entries)
  else if max_count ≤ 65535 then SmVariant.smU16 (CoreSpaceMap.new nr_entries)
  else SmVariant.smU32 (CoreSpaceMap.new nr_entries)

/-- The `SpaceMap` trait method `get` on the variant returned by
`core_sm`: every width dispatches to the same `CoreSpaceMap::get`. -/
def SmVariant.get (v : SmVariant) (b : Nat) : Option Nat :=
  match v with
  | .smU8 sm => sm.get b
  | .smU16 sm => sm.get b
  | .smU32 sm => sm.get b

/-- The `SpaceMap` trait method `inc` on the variant returned by
`core_sm`: every width dispatches to the same `CoreSpaceMap::inc`. -/
def SmVariant.inc (v : SmVariant) (b len : Nat) : Option SmVariant :=
  match v with
  | .smU8 sm => (sm.inc b len).map SmVariant.smU8
  | .smU16 sm => (sm.inc b len).map SmVariant.smU16
  | .smU32 sm => (sm.inc b len).map SmVariant.smU32

/-- Record of the `SpaceMap` interface as implemented by the in-core map:
the array-backed variant supplies each declared trait operation. -/
structure SpaceMapIface (S : Type) where
  get : S → Nat → Option Nat
  inc : S → Nat → Nat → Option S

/-- The `impl SpaceMap for CoreSpaceMap` of the source, as an interface
record: its operations are exactly `CoreSpaceMap.get` and
`CoreSpaceMap.inc`. -/
def coreSpaceMapIface : SpaceMapIface CoreSpaceMap :=
  ⟨CoreSpaceMap.get, CoreSpaceMap.inc⟩

/-! ## Full in-core space map with dec and nr_allocated

Modelled from the spec: the sampled `trait SpaceMap` declares only `get`
and `inc`; the spec additionally describes `dec(begin, len)` and
`nr_allocated()` for the array-backed in-core map (spec 4.3 and testable
property 8.4). `get` and `inc` below follow the sampled
`CoreSpaceMap`; `dec` decrements each count in the range and fails
(the unsigned count would underflow) on a zero count; `nr_allocated` is
maintained incrementally: an increment from zero raises it, a decrement
to zero lowers it. -/

/-- Modelled from the spec: the in-core space map extended with the
`nr_allocated` counter the sampled source omits. -/
structure CoreSpaceMapFull where
  counts : List Nat
  nr_allocated : Nat
deriving DecidableEq, Repr

/-- Fresh full map: `nr_entries` zero counts, nothing allocated. -/
def CoreSpaceMapFull.new (nr_entries : Nat) : CoreSpaceMapFull :=
  ⟨List.replicate nr_entries 0, 0⟩

/-- The `get` of the full map, as in the sampled `CoreSpaceMap::get`. -/
def CoreSpaceMapFull.get (sm : CoreSpaceMapFull) (b : Nat) : Option Nat :=
  sm.counts[b]?

/-- One increment of the full map: bump `counts[b]`, and raise
`nr_allocated` when the block goes from free to allocated. -/
def CoreSpaceMapFull.incOne (sm : CoreSpaceMapFull) (b : Nat) : Option CoreSpaceMapFull :=
  match sm.counts[b]? with
  | none => none
  | some c =>
    some ⟨sm.counts.set b (c + 1),
          if c = 0 then sm.nr_allocated + 1 else sm.nr_allocated⟩

/-- Modelled from the spec: one decrement of the full map; decrementing a
free block is a refcount underflow, modelled as failure. -/
def CoreSpaceMapFull.decOne (sm : CoreSpaceMapFull) (b : Nat) : Option CoreSpaceMapFull :=
  match sm.counts[b]? with
  | none => none
  | some c =>
    if c = 0 then none
    else
      some ⟨sm.counts.set b (c - 1),
            if c = 1 then sm.nr_allocated - 1 else sm.nr_allocated⟩

/-- The `inc` loop of the full map over `begin..(begin + len)`. -/
def CoreSpaceMapFull.incFrom (sm : CoreSpaceMapFull) (b : Nat) :
    Nat → Option CoreSpaceMapFull
  | 0 => some sm
  | len + 1 =>
    match sm.incOne b with
    | none => none
    | some sm2 => sm2.incFrom (b + 1) len

/-- Modelled from the spec: the `dec` loop of the full map over
`begin..(begin + len)`. -/
def CoreSpaceMapFull.decFrom (sm : CoreSpaceMapFull) (b : Nat) :
    Nat → Option CoreSpaceMapFull
  | 0 => some sm
  | len + 1 =>
    match sm.decOne b with
    | none => none
    | some sm2 => sm2.decFrom (b + 1) len

/-- The `inc(begin, len)` operation of the full map. -/
def CoreSpaceMapFull.inc (sm : CoreSpaceMapFull) (b len : Nat) : Option CoreSpaceMapFull :=
  sm.incFrom b len

/-- Modelled from the spec: the `dec(begin, len)` operation of the full map. -/
def CoreSpaceMapFull.dec (sm : CoreSpaceMapFull) (b len : Nat) : Option CoreSpaceMapFull :=
  sm.decFrom b len

/-- A space-map operation: `inc(begin, len)` or `dec(begin, len)`. -/
inductive SmOp where
  | inc (b len : Nat)
  | dec (b len : Nat)
deriving DecidableEq, Repr

/-- Apply one operation to the full map. -/
def applyOp (sm : CoreSpaceMapFull) : SmOp → Option CoreSpaceMapFull
  | .inc b len => sm.inc b len
  | .dec b len => sm.dec b len

/-- Run a sequence of operations; the whole run fails as soon as one
operation fails (a panic has no after-state). -/
def applyOps (sm : CoreSpaceMapFull) : List SmOp → Option CoreSpaceMapFull
  | [] => some sm
  | op :: ops =>
    match applyOp sm op with
    | none => none
    | some sm2 => applyOps sm2 ops

/-- Does the half-open range `b..(b + len)` contain `j`. -/
def inOpRange (b len j : Nat) : Bool := b ≤ j && j < b + len

/-- Signed contribution of one operation to the count of block `j`. -/
def opDelta (op : SmOp) (j : Nat) : Int :=
  match op with
  | .inc b len => if inOpRange b len j then 1 else 0
  | .dec b len => if inOpRange b len j then -1 else 0

/-- Cumulative inc/dec history of block `j`: increments minus decrements
over every operation whose range contains `j`. -/
def cumul (ops : List SmOp) (j : Nat) : Int :=
  (ops.map (fun op => opDelta op j)).sum

/-- One past the last block index an operation touches. -/
def opEnd : SmOp → Nat
  | .inc b len => b + len
  | .dec b len => b + len

/-- Every block index accessed by the operations is below `n`. -/
def opsInBounds (n : Nat) (ops : List SmOp) : Prop :=
  ∀ op ∈ ops, opEnd op ≤ n

/-! ## Superblock and set_needs_check (src/thin/metadata_generator.rs)

Modelled from the spec: `crate::thin::superblock` (the `Superblock`
record, `read_superblock`, `write_superblock`, `SUPERBLOCK_LOCATION`) is
not among the sampled sources; the record fields follow spec section 3
(Superblock) and the read/write contract follows spec section 4.6. The
sampled `set_needs_check` itself is embedded verbatim from
src/thin/metadata_generator.rs. -/

/-- Modelled from the spec: the thin superblock record (format version,
transaction id, metadata snapshot, data-device geometry, tree and
space-map roots, timestamps, and the flags, notably `needs_check`). -/
structure Superblock where
  version : Nat
  transaction_id : Nat
  metadata_snap : Nat
  data_block_size : Nat
  nr_data_blocks : Nat
  needs_check : Bool
  mapping_root : Nat
  details_root : Nat
  data_sm_root : Nat
  metadata_sm_root : Nat
  time : Nat
deriving DecidableEq, Repr

/-- Modelled from the spec: the on-disk state an engine exposes at
SUPERBLOCK_LOCATION (block 0): either a decodable superblock or
something unreadable (`none`). -/
abbrev DiskState : Type := Option Superblock

/-- Modelled from the spec: `read_superblock` validates and decodes the
superblock at block 0, failing when the block is unreadable. -/
def read_superblock (d : DiskState) : Except String Superblock :=
  match d with
  | none => Except.error "bad superblock"
  | some sb => Except.ok sb

/-- Modelled from the spec: `write_superblock` replaces the on-disk
superblock at block 0. -/
def write_superblock (_d : DiskState) (sb : Superblock) : DiskState :=
  some sb

/-- Embeds `set_needs_check`: read the current superblock, set
`sb.flags.needs_check = true`, and write it back. -/
def set_needs_check (d : DiskState) : Except String DiskState :=
  match read_superblock d with
  | Except.error e => Except.error e
  | Except.ok sb => Except.ok (write_superblock d { sb with needs_check := true })

/-! ## Engine selection in generate_metadata
(src/thin/metadata_generator.rs) -/

/-- Embeds `MAX_CONCURRENT_IO`. -/
def maxConcurrentIo : Nat := 1024

/-- Modelled from the spec: the two engine constructors
(`AsyncIoEngine::new` and `SyncIoEngine::new` are not among the sampled
sources) recorded by their concurrency parameter — the in-flight
operation cap of the asynchronous ring, or the worker count of the
synchronous pool (spec section 4.1). -/
inductive EngineChoice where
  | asyncEngine (maxInFlight : Nat)
  | syncPool (nrThreads : Nat)
deriving DecidableEq, Repr

/-- Embeds the engine construction at the top of `generate_metadata`:
`AsyncIoEngine::new(output, MAX_CONCURRENT_IO, true)` when `async_io`,
else `SyncIoEngine::new(output, max(8, num_cpus*2), true)`;
`ncpus` stands for `num_cpus::get()`. -/
def chooseEngine (async_io : Bool) (ncpus : Nat) : EngineChoice :=
  if async_io then EngineChoice.asyncEngine maxConcurrentIo
  else EngineChoice.syncPool (max 8 (ncpus * 2))

/-! ## thin_generate_damage argument validation
(src/commands/thin_generate_damage.rs)

The `clap` builder declares: `--create-metadata-leaks` (a flag) with
`requires_all([EXPECTED, ACTUAL, NR_BLOCKS])`; `--expected`, `--actual`,
`--nr-blocks` as plain options; `--output` with `required(true)`; and a
required group `commands` whose only member is CREATE_METADATA_LEAKS.
The validation below applies those declared constraints to a set of
provided arguments. -/

/-- Which arguments an invocation of `thin_generate_damage` provides. -/
structure DamageArgs where
  create_metadata_leaks : Bool
  expected : Option Nat
  actual : Option Nat
  nr_blocks : Option Nat
  output : Option String
deriving DecidableEq, Repr

/-- The declared clap constraints of `ThinGenerateDamageCommand::cli`:
`--output` is required; the group of command flags (only
`--create-metadata-leaks`) is required; and the flag requires
`--expected`, `--actual` and `--nr-blocks`. -/
def damageCliAccepts (a : DamageArgs) : Bool :=
  a.output.isSome
    && a.create_metadata_leaks
    && (!a.create_metadata_leaks
        || (a.expected.isSome && a.actual.isSome && a.nr_blocks.isSome))

/-! ## Dump/restore pipeline (src/tests/thin_dump.rs, dump_restore_cycle)

Modelled from the spec: the dump and restore executables themselves are
not among the sampled sources (only their integration test is). The
model follows the spec: metadata content is the IR emitted through the
`MetadataVisitor` suite (superblock, device, map range, spec section 6);
the XML on stdout is a stream of visitor events, serialized
deterministically by dump; restore replays the stream through a
`Restorer` state machine onto a fresh image. -/

/-- Modelled from the spec: one thin device of the IR — its id and its
mapped ranges (thin begin, data begin, length). -/
structure DevIR where
  dev_id : Nat
  mappings : List (Nat × Nat × Nat)
deriving DecidableEq, Repr

/-- Modelled from the spec: the logical content of a metadata image —
superblock attributes and the device list. -/
structure MetaIR where
  time : Nat
  transaction : Nat
  data_block_size : Nat
  nr_data_blocks : Nat
  devices : List DevIR
deriving DecidableEq, Repr

/-- Modelled from the spec: the XML events on stdout, one per
`MetadataVisitor` callback. -/
inductive XmlTok where
  | sbBegin (time transaction data_block_size nr_data_blocks : Nat)
  | sbEnd
  | devBegin (dev_id : Nat)
  | devEnd
  | rmap (thin_begin data_begin len : Nat)
deriving DecidableEq, Repr

/-- Serialize one device: its begin tag, its range maps, its end tag. -/
def serializeDevice (d : DevIR) : List XmlTok :=
  XmlTok.devBegin d.dev_id
    :: (d.mappings.map (fun m => XmlTok.rmap m.1 m.2.1 m.2.2) ++ [XmlTok.devEnd])

/-- Serialize the device list in order. -/
def serializeDevices (ds : List DevIR) : List XmlTok :=
  ds.foldr (fun d acc => serializeDevice d ++ acc) []

/-- Modelled from the spec: `thin_dump` serializes the IR of an image as
the superblock element wrapping the devices. -/
def dumpIR (ir : MetaIR) : List XmlTok :=
  XmlTok.sbBegin ir.time ir.transaction ir.data_block_size ir.nr_data_blocks
    :: (serializeDevices ir.devices ++ [XmlTok.sbEnd])

/-- State of the `Restorer` while replaying a stream of visitor events. -/
inductive RState where
  | start
  | inSb (time transaction data_block_size nr_data_blocks : Nat) (devs : List DevIR)
  | inDev (time transaction data_block_size nr_data_blocks : Nat) (devs : List DevIR)
      (dev_id : Nat) (ms : List (Nat × Nat × Nat))
  | closed (ir : MetaIR)
  | failed
deriving DecidableEq, Repr

/-- Modelled from the spec: one step of the `Restorer` — each visitor
event is legal only in the matching state; anything else fails. -/
def rstep (s : RState) (t : XmlTok) : RState :=
  match s, t with
  | RState.start, XmlTok.sbBegin ti tr dbs ndb => RState.inSb ti tr dbs ndb []
  | RState.inSb ti tr dbs ndb devs, XmlTok.devBegin i =>
      RState.inDev ti tr dbs ndb devs i []
  | RState.inSb ti tr dbs ndb devs, XmlTok.sbEnd =>
      RState.closed ⟨ti, tr, dbs, ndb, devs⟩
  | RState.inDev ti tr dbs ndb devs i ms, XmlTok.rmap a b c =>
      RState.inDev ti tr dbs ndb devs i (ms ++ [(a, b, c)])
  | RState.inDev ti tr dbs ndb devs i ms, XmlTok.devEnd =>
      RState.inSb ti tr dbs ndb (devs ++ [⟨i, ms⟩])
  | _, _ => RState.failed

/-- Modelled from the spec: parse a full event stream by replaying it
through the `Restorer`; it succeeds only when the stream closes the
superblock exactly. -/
def parseToks (toks : List XmlTok) : Option MetaIR :=
  match toks.foldl rstep RState.start with
  | RState.closed ir => some ir
  | _ => none

/-- Modelled from the spec: a metadata image, abstracted to its logical
content; `none` is an image with no valid metadata (for instance the
fresh zeroed image before a restore). -/
abbrev Image : Type := Option MetaIR

/-- Modelled from the spec: `thin_dump` writes the serialized IR to
stdout, failing on an image with no valid metadata. -/
def thin_dump (m : Image) : Option (List XmlTok) :=
  match m with
  | none => none
  | some ir => some (dumpIR ir)

/-- Modelled from the spec: `thin_restore` parses the XML and writes an
image holding exactly the parsed content, regardless of the prior
content of the output image. -/
def thin_restore (xml : List XmlTok) (_dest : Image) : Option Image :=
  match parseToks xml with
  | none => none
  | some ir => some (some ir)

/-! ## Characterizations used by the verification -/

/-- The two-bit entry of `word` at position `j` (least-significant bits
first): values 0, 1, 2 give the literal small count, value 3 the
overflow sentinel. -/
def entryOf (word j : Nat) : BitmapEntry :=
  if word / 4 ^ j % 4 < 3 then BitmapEntry.Small (word / 4 ^ j % 4)
  else BitmapEntry.Overflow

/-- Flat random-access description of the bitmap payload: the entries of
`w` consecutive little-endian 64-bit words of `data`. -/
def wordsFlat (data : List Nat) : Nat → List BitmapEntry
  | 0 => []
  | w + 1 => decodeWordEntries (leNum (data.take 8)) 32 ++ wordsFlat (data.drop 8) w

/-! ## Claims about the interface and the simple entry points -/

/-- Claim C2, counterexample: the sampled `trait SpaceMap` does not
declare `dec`, `alloc`, `nr_allocated` or `nr_blocks`; only `get` and
`inc` are provided. -/
theorem c2_counterexample :
    ¬ ("dec" ∈ spaceMapTraitOps ∧ "alloc" ∈ spaceMapTraitOps ∧
       "nr_allocated" ∈ spaceMapTraitOps ∧ "nr_blocks" ∈ spaceMapTraitOps) := by
  decide

/-- Claim C2, amended: the space-map public interface provides exactly
the two operations `get(b)` and `inc(begin, len)`, and the in-core
array-backed variant implements this interface. -/
theorem c2_space_map_interface :
    spaceMapTraitOps = ["get", "inc"] ∧
    coreSpaceMapIface.get = CoreSpaceMap.get ∧
    coreSpaceMapIface.inc = CoreSpaceMap.inc :=
  ⟨rfl, rfl, rfl⟩

/-- Claim C4: whenever the superblock at block 0 is readable, running
`set_needs_check` twice leaves the on-disk superblock exactly as running
it once does, with the `needs_check` flag set to true. -/
theorem c4_set_needs_check_idempotent (d : DiskState) (sb : Superblock)
    (h : d = some sb) :
    ∃ d2, set_needs_check d = Except.ok d2 ∧
      set_needs_check d2 = Except.ok d2 ∧
      d2 = some { sb with needs_check := true } := by
  subst h
  exact ⟨some { sb with needs_check := true }, rfl, rfl, rfl⟩

/-- Witness for claim C4 at a concrete superblock. -/
theorem c4_witness :
    ∃ d2,
      set_needs_check (some ⟨2, 1, 0, 128, 20480, false, 10, 11, 12, 13, 5⟩)
        = Except.ok d2 ∧
      set_needs_check d2 = Except.ok d2 ∧
      d2 = some ⟨2, 1, 0, 128, 20480, true, 10, 11, 12, 13, 5⟩ :=
  c4_set_needs_check_idempotent
    (some ⟨2, 1, 0, 128, 20480, false, 10, 11, 12, 13, 5⟩)
    ⟨2, 1, 0, 128, 20480, false, 10, 11, 12, 13, 5⟩ rfl

/-- Claim C7: `core_sm` picks the u8-backed in-core map when
`max_count` is at most 255, the u16-backed one between 256 and 65535,
the u32-backed one above, and every variant dispatches the `SpaceMap`
operations to the same array-backed implementation. -/
theorem c7_core_sm_width (nr_entries max_count : Nat) :
    (max_count ≤ 255 →
      core_sm nr_entries max_count = SmVariant.smU8 (CoreSpaceMap.new nr_entries)) ∧
    (256 ≤ max_count → max_count ≤ 65535 →
      core_sm nr_entries max_count = SmVariant.smU16 (CoreSpaceMap.new nr_entries)) ∧
    (65536 ≤ max_count →
      core_sm nr_entries max_count = SmVariant.smU32 (CoreSpaceMap.new nr_entries)) ∧
    (∀ sm : CoreSpaceMap, ∀ b,
      (SmVariant.smU8 sm).get b = sm.get b ∧
      (SmVariant.smU16 sm).get b = sm.get b ∧
      (SmVariant.smU32 sm).get b = sm.get b) ∧
    (∀ sm : CoreSpaceMap, ∀ b len,
      (SmVariant.smU8 sm).inc b len = (sm.inc b len).map SmVariant.smU8 ∧
      (SmVariant.smU16 sm).inc b len = (sm.inc b len).map SmVariant.smU16 ∧
      (SmVariant.smU32 sm).inc b len = (sm.inc b len).map SmVariant.smU32) := by
  refine ⟨?_, ?_, ?_, ?_, ?_⟩
  · intro h1
    simp [core_sm, h1]
  · intro h1 h2
    have : ¬ max_count ≤ 255 := by omega
    simp [core_sm, this, h2]
  · intro h1
    have n1 : ¬ max_count ≤ 255 := by omega
    have n2 : ¬ max_count ≤ 65535 := by omega
    simp [core_sm, n1, n2]
  · intro sm b
    exact ⟨rfl, rfl, rfl⟩
  · intro sm b len
    exact ⟨rfl, rfl, rfl⟩

/-- Witness for claim C7: `max_count = 300` selects the u16 variant. -/
theorem c7_witness :
    core_sm 4 300 = SmVariant.smU16 (CoreSpaceMap.new 4) :=
  (c7_core_sm_width 4 300).2.1 (by omega) (by omega)

/-- Claim C8: `generate_metadata` builds one engine from the options —
asynchronous with 1024 concurrent in-flight operations when `async_io`
holds, otherwise a synchronous pool of `max 8 (2 * ncpus)` workers,
which is at least 8 and equals twice the logical CPU count whenever that
is at least 8. -/
theorem c8_generate_metadata_engine (ncpus : Nat) :
    chooseEngine true ncpus = EngineChoice.asyncEngine 1024 ∧
    chooseEngine false ncpus = EngineChoice.syncPool (max 8 (2 * ncpus)) ∧
    (∀ t, chooseEngine false ncpus = EngineChoice.syncPool t →
      8 ≤ t ∧ (8 ≤ 2 * ncpus → t = 2 * ncpus) ∧ (2 * ncpus < 8 → t = 8)) := by
  refine ⟨rfl, by simp [chooseEngine, Nat.mul_comm], ?_⟩
  intro t ht
  simp only [chooseEngine, if_neg (by simp : ¬ (False : Prop)), Bool.false_eq_true,
    if_false, EngineChoice.syncPool.injEq] at ht
  subst ht
  rcases Nat.le_total 8 (ncpus * 2) with hle | hle
  · rw [Nat.max_eq_right hle]
    omega
  · rw [Nat.max_eq_left hle]
    omega

/-- Witness for claim C8 at 8 logical CPUs. -/
theorem c8_witness :
    8 ≤ 16 ∧ (8 ≤ 2 * 8 → 16 = 2 * 8) ∧ (2 * 8 < 8 → 16 = 8) :=
  (c8_generate_metadata_engine 8).2.2 16 (by decide)

/-- Claim C10: `thin_generate_damage` accepts an invocation exactly when
the sole command flag `--create-metadata-leaks` is given together with
all three of `--expected`, `--actual`, `--nr-blocks`, and `--output`;
parsing fails whenever any of them is missing. -/
theorem c10_damage_cli (a : DamageArgs) :
    damageCliAccepts a = true ↔
      (a.create_metadata_leaks = true ∧ a.expected.isSome = true ∧
       a.actual.isSome = true ∧ a.nr_blocks.isSome = true ∧
       a.output.isSome = true) := by
  rcases a with ⟨c, e, ac, nb, o⟩
  cases c
  · simp [damageCliAccepts]
  · simp [damageCliAccepts]
    tauto

/-- Witness for claim C10: a full invocation is accepted. -/
theorem c10_witness :
    damageCliAccepts ⟨true, some 2, some 1, some 16, some "dev"⟩ = true :=
  (c10_damage_cli ⟨true, some 2, some 1, some 16, some "dev"⟩).mpr
    ⟨rfl, rfl, rfl, rfl, rfl⟩

/-- Claim C6: `unpack_root` decodes any input of at least 32 bytes as the
four little-endian 64-bit fields `nr_blocks`, `nr_allocated`,
`bitmap_root`, `ref_count_root` at offsets 0, 8, 16, 24, and returns an
error on every shorter input. -/
theorem c6_unpack_root (data : List Nat) :
    (32 ≤ data.length →
      unpack_root data = Except.ok
        ⟨leNum (data.take 8), leNum ((data.drop 8).take 8),
         leNum ((data.drop 16).take 8), leNum ((data.drop 24).take 8)⟩) ∧
    (data.length < 32 →
      unpack_root data = Except.error "could not parse SMRoot") := by
  constructor
  · intro h
    have e1 : le_u64 data = some (leNum (data.take 8), data.drop 8) := by
      simp [le_u64]
      omega
    have e2 : le_u64 (data.drop 8)
        = some (leNum ((data.drop 8).take 8), data.drop 16) := by
      simp [le_u64, List.drop_drop]
      omega
    have e3 : le_u64 (data.drop 16)
        = some (leNum ((data.drop 16).take 8), data.drop 24) := by
      simp [le_u64, List.drop_drop]
      omega
    have e4 : le_u64 (data.drop 24)
        = some (leNum ((data.drop 24).take 8), data.drop 32) := by
      simp [le_u64, List.drop_drop]
      omega
    simp [unpack_root, SMRoot.unpack, e1, e2, e3, e4]
  · intro h
    by_cases h1 : 8 ≤ data.length
    · have e1 : le_u64 data = some (leNum (data.take 8), data.drop 8) := by
        simp [le_u64]
        omega
      by_cases h2 : 16 ≤ data.length
      · have e2 : le_u64 (data.drop 8)
            = some (leNum ((data.drop 8).take 8), data.drop 16) := by
          simp [le_u64, List.drop_drop]
          omega
        by_cases h3 : 24 ≤ data.length
        · have e3 : le_u64 (data.drop 16)
              = some (leNum ((data.drop 16).take 8), data.drop 24) := by
            simp [le_u64, List.drop_drop]
            omega
          have e4 : le_u64 (data.drop 24) = none := by
            simp [le_u64]
            omega
          simp [unpack_root, SMRoot.unpack, e1, e2, e3, e4]
        · have e3 : le_u64 (data.drop 16) = none := by
            simp [le_u64]
            omega
          simp [unpack_root, SMRoot.unpack, e1, e2, e3]
      · have e2 : le_u64 (data.drop 8) = none := by
          simp [le_u64]
          omega
        simp [unpack_root, SMRoot.unpack, e1, e2]
    · have e1 : le_u64 data = none := by
        simp [le_u64]
        omega
      simp [unpack_root, SMRoot.unpack, e1]

/-- Witness for claim C6: an all-zero 32-byte input decodes to the zero
root, and a 3-byte input is rejected. -/
theorem c6_witness :
    unpack_root (List.replicate 32 0) = Except.ok ⟨0, 0, 0, 0⟩ ∧
    unpack_root [1, 2, 3] = Except.error "could not parse SMRoot" :=
  ⟨by
    have := (c6_unpack_root (List.replicate 32 0)).1 (by simp)
    simpa using this,
   (c6_unpack_root [1, 2, 3]).2 (by simp)⟩

/-! ## Bounds behaviour of the in-core space map (claim C9) -/

/-- Helper: an optional list index is present exactly when in bounds. -/
theorem getElem?_isSome_iff (l : List Nat) (i : Nat) :
    l[i]?.isSome = true ↔ i < l.length := by
  constructor
  · intro h
    rcases Option.isSome_iff_exists.mp h with ⟨a, ha⟩
    by_contra hn
    rw [List.getElem?_eq_none (by omega)] at ha
    cases ha
  · intro h
    rw [List.getElem?_eq_getElem h]
    rfl

/-- Helper: the `inc` loop of the sampled in-core map succeeds exactly
when every index it visits is in bounds. -/
theorem coreIncFrom_isSome (len : Nat) :
    ∀ (sm : CoreSpaceMap) (b : Nat),
      (sm.incFrom b len).isSome = true ↔
        ∀ i, b ≤ i → i < b + len → i < sm.counts.length := by
  induction len with
  | zero =>
    intro sm b
    constructor
    · intro _ i h1 h2
      omega
    · intro _
      rfl
  | succ n ih =>
    intro sm b
    by_cases hb : b < sm.counts.length
    · have hc : sm.counts[b]? = some sm.counts[b] := List.getElem?_eq_getElem hb
      have hstep : sm.incFrom b (n + 1)
          = (CoreSpaceMap.mk (sm.counts.set b (sm.counts[b] + 1))).incFrom (b + 1) n := by
        simp [CoreSpaceMap.incFrom, CoreSpaceMap.incOne, hc]
      rw [hstep, ih]
      simp only [List.length_set]
      constructor
      · intro hall i h1 h2
        by_cases hib : i = b
        · omega
        · exact hall i (by omega) (by omega)
      · intro hall i h1 h2
        exact hall i (by omega) (by omega)
    · have hc : sm.counts[b]? = none := List.getElem?_eq_none (by omega)
      have hstep : sm.incFrom b (n + 1) = none := by
        simp [CoreSpaceMap.incFrom, CoreSpaceMap.incOne, hc]
      rw [hstep]
      constructor
      · intro hfalse
        cases hfalse
      · intro hall
        exact absurd (hall b (Nat.le_refl b) (by omega)) (by omega)

/-- Claim C9: `get` and `inc` of the in-core map return Ok exactly when
every accessed index is below the number of entries; any access at or
beyond it panics on vector indexing (modelled as `none`) instead of
returning an error value. -/
theorem c9_core_space_map_bounds (sm : CoreSpaceMap) :
    (∀ b, (sm.get b).isSome = true ↔ b < sm.counts.length) ∧
    (∀ b len, (sm.inc b len).isSome = true ↔
      ∀ i, b ≤ i → i < b + len → i < sm.counts.length) := by
  constructor
  · intro b
    exact getElem?_isSome_iff sm.counts b
  · intro b len
    exact coreIncFrom_isSome len sm b

/-- Witness for claim C9 on a two-entry map: in-bounds calls succeed,
out-of-bounds calls panic. -/
theorem c9_witness :
    (((CoreSpaceMap.new 2).get 1).isSome = true) ∧
    (((CoreSpaceMap.new 2).get 2).isSome = false) ∧
    (((CoreSpaceMap.new 2).inc 0 2).isSome = true) ∧
    (((CoreSpaceMap.new 2).inc 1 2).isSome = false) := by
  have h := c9_core_space_map_bounds (CoreSpaceMap.new 2)
  refine ⟨(h.1 1).mpr (by simp [CoreSpaceMap.new]), ?_, ?_, ?_⟩
  · have h2 : ¬ ((CoreSpaceMap.new 2).get 2).isSome = true := by
      rw [h.1 2]
      simp [CoreSpaceMap.new]
    simpa using h2
  · exact (h.2 0 2).mpr (by
      intro i h1 h2
      simp [CoreSpaceMap.new]
      omega)
  · have h3 := h.2 1 2
    by_contra hcon
    simp only [Bool.not_eq_false] at hcon
    have := h3.mp hcon 2 (by omega) (by omega)
    simp [CoreSpaceMap.new] at this

/-! ## Dump/restore round trip (claim C5) -/

/-- Helper: replaying the serialized range maps of a device appends them
to the mappings accumulated in the `Restorer` state. -/
theorem foldl_rstep_maps (ms : List (Nat × Nat × Nat)) :
    ∀ (ti tr dbs ndb : Nat) (devs : List DevIR) (i : Nat)
      (acc : List (Nat × Nat × Nat)) (rest : List XmlTok),
      List.foldl rstep (RState.inDev ti tr dbs ndb devs i acc)
          (ms.map (fun m => XmlTok.rmap m.1 m.2.1 m.2.2) ++ rest)
        = List.foldl rstep (RState.inDev ti tr dbs ndb devs i (acc ++ ms)) rest := by
  induction ms with
  | nil =>
    intro ti tr dbs ndb devs i acc rest
    simp
  | cons m ms ih =>
    intro ti tr dbs ndb devs i acc rest
    simp only [List.map_cons, List.cons_append, List.foldl_cons]
    have hstep : rstep (RState.inDev ti tr dbs ndb devs i acc)
        (XmlTok.rmap m.1 m.2.1 m.2.2)
        = RState.inDev ti tr dbs ndb devs i (acc ++ [m]) := rfl
    rw [hstep, ih]
    have hacc : (acc ++ [m]) ++ ms = acc ++ m :: ms := by simp
    rw [hacc]

/-- Helper: replaying the serialized device list appends the devices to
those accumulated in the `Restorer` state. -/
theorem foldl_rstep_devices (ds : List DevIR) :
    ∀ (ti tr dbs ndb : Nat) (acc : List DevIR) (rest : List XmlTok),
      List.foldl rstep (RState.inSb ti tr dbs ndb acc) (serializeDevices ds ++ rest)
        = List.foldl rstep (RState.inSb ti tr dbs ndb (acc ++ ds)) rest := by
  induction ds with
  | nil =>
    intro ti tr dbs ndb acc rest
    simp [serializeDevices]
  | cons d ds ih =>
    intro ti tr dbs ndb acc rest
    have hser : serializeDevices (d :: ds) = serializeDevice d ++ serializeDevices ds := rfl
    rw [hser, List.append_assoc]
    simp only [serializeDevice, List.cons_append, List.foldl_cons]
    have hstep : rstep (RState.inSb ti tr dbs ndb acc) (XmlTok.devBegin d.dev_id)
        = RState.inDev ti tr dbs ndb acc d.dev_id [] := rfl
    rw [hstep, List.append_assoc,
      foldl_rstep_maps d.mappings ti tr dbs ndb acc d.dev_id []
        ([XmlTok.devEnd] ++ (serializeDevices ds ++ rest))]
    simp only [List.nil_append, List.cons_append, List.foldl_cons]
    have hstep2 : rstep (RState.inDev ti tr dbs ndb acc d.dev_id d.mappings) XmlTok.devEnd
        = RState.inSb ti tr dbs ndb (acc ++ [⟨d.dev_id, d.mappings⟩]) := rfl
    rw [hstep2, ih]
    have hacc : (acc ++ [⟨d.dev_id, d.mappings⟩]) ++ ds = acc ++ d :: ds := by simp
    rw [hacc]

/-- Helper: replaying a dumped event stream through the `Restorer`
recovers exactly the dumped IR. -/
theorem parse_dump_roundtrip (ir : MetaIR) : parseToks (dumpIR ir) = some ir := by
  rcases ir with ⟨ti, tr, dbs, ndb, ds⟩
  simp only [dumpIR, parseToks, List.foldl_cons]
  have hstep : rstep RState.start (XmlTok.sbBegin ti tr dbs ndb)
      = RState.inSb ti tr dbs ndb [] := rfl
  rw [hstep, foldl_rstep_devices ds ti tr dbs ndb [] [XmlTok.sbEnd]]
  simp [rstep]

/-- Claim C5: dumping a valid metadata image, restoring the XML onto a
fresh image, and dumping again reproduces the first dump byte for byte
(event for event on the modelled stdout stream). -/
theorem c5_dump_restore_cycle (m : Image) (ir : MetaIR) (xml : List XmlTok)
    (fresh : Image) (hvalid : m = some ir) (hdump : thin_dump m = some xml) :
    ∃ m2, thin_restore xml fresh = some m2 ∧ thin_dump m2 = some xml := by
  subst hvalid
  have hxml : xml = dumpIR ir := by
    simpa [thin_dump] using hdump.symm
  subst hxml
  refine ⟨some ir, ?_, rfl⟩
  simp [thin_restore, parse_dump_roundtrip]

/-- Witness for claim C5 on a one-device, one-mapping image. -/
theorem c5_witness :
    ∃ m2,
      thin_restore (dumpIR ⟨1, 2, 128, 100, [⟨0, [(0, 1, 1)]⟩]⟩) none = some m2 ∧
      thin_dump m2 = some (dumpIR ⟨1, 2, 128, 100, [⟨0, [(0, 1, 1)]⟩]⟩) :=
  c5_dump_restore_cycle (some ⟨1, 2, 128, 100, [⟨0, [(0, 1, 1)]⟩]⟩)
    ⟨1, 2, 128, 100, [⟨0, [(0, 1, 1)]⟩]⟩
    (dumpIR ⟨1, 2, 128, 100, [⟨0, [(0, 1, 1)]⟩]⟩) none rfl rfl

/-! ## Bitmap decoding (claim C3) -/

/-- Helper: a decoded word yields exactly the requested number of
entries. -/
theorem decodeWordEntries_length (m : Nat) :
    ∀ word, (decodeWordEntries word m).length = m := by
  induction m with
  | zero =>
    intro word
    rfl
  | succ k ih =>
    intro word
    simp [decodeWordEntries, ih]

/-- Helper: entry `j` of a decoded word is the two-bit field `j` of the
word, least-significant bits first. -/
theorem decodeWordEntries_getElem (m : Nat) :
    ∀ word j, j < m → (decodeWordEntries word m)[j]? = some (entryOf word j) := by
  induction m with
  | zero =>
    intro word j h
    omega
  | succ k ih =>
    intro word j h
    cases j with
    | zero =>
      simp [decodeWordEntries, entryOf]
    | succ j2 =>
      simp only [decodeWordEntries, List.getElem?_cons_succ]
      rw [ih (word / 4) j2 (by omega)]
      have hdiv : word / 4 / 4 ^ j2 = word / 4 ^ (j2 + 1) := by
        rw [Nat.div_div_eq_div_mul, pow_succ, Nat.mul_comm]
      simp [entryOf, hdiv]

/-- Helper: flat payload length is 32 entries per word. -/
theorem wordsFlat_length (w : Nat) :
    ∀ data, (wordsFlat data w).length = 32 * w := by
  induction w with
  | zero =>
    intro data
    rfl
  | succ m ih =>
    intro data
    simp [wordsFlat, decodeWordEntries_length, ih]
    ring

/-- Helper: entry `k` of the flat payload is the two-bit field `k mod 32`
of the little-endian word at byte offset `8 * (k / 32)`. -/
theorem wordsFlat_getElem (w : Nat) :
    ∀ data k, k < 32 * w →
      (wordsFlat data w)[k]?
        = some (entryOf (leNum ((data.drop (8 * (k / 32))).take 8)) (k % 32)) := by
  induction w with
  | zero =>
    intro data k h
    omega
  | succ m ih =>
    intro data k h
    have hlen : (decodeWordEntries (leNum (data.take 8)) 32).length = 32 :=
      decodeWordEntries_length 32 _
    by_cases h32 : k < 32
    · rw [wordsFlat, List.getElem?_append_left (by omega)]
      rw [decodeWordEntries_getElem 32 _ k h32]
      have h1 : k / 32 = 0 := by omega
      have h2 : k % 32 = k := by omega
      simp [h1, h2]
    · rw [wordsFlat, List.getElem?_append_right (by omega)]
      rw [hlen, ih (data.drop 8) (k - 32) (by omega)]
      have e1 : (data.drop 8).drop (8 * ((k - 32) / 32)) = data.drop (8 * (k / 32)) := by
        rw [List.drop_drop]
        congr 1
        omega
      have e2 : (k - 32) % 32 = k % 32 := by omega
      rw [e1, e2]

/-- Helper: with enough input the word loop consumes exactly `8 * w`
bytes and appends the flat payload to the accumulator. -/
theorem unpackWords_spec (w : Nat) :
    ∀ data acc, 8 * w ≤ data.length →
      unpackWords data acc w = some (acc ++ wordsFlat data w, data.drop (8 * w)) := by
  induction w with
  | zero =>
    intro data acc _
    simp [unpackWords, wordsFlat]
  | succ m ih =>
    intro data acc h
    have hle : le_u64 data = some (leNum (data.take 8), data.drop 8) := by
      simp [le_u64]
      omega
    simp only [unpackWords, hle]
    rw [ih (data.drop 8) (acc ++ decodeWordEntries (leNum (data.take 8)) 32) (by
      simp only [List.length_drop]
      omega)]
    have e1 : (acc ++ decodeWordEntries (leNum (data.take 8)) 32) ++ wordsFlat (data.drop 8) m
        = acc ++ wordsFlat data (m + 1) := by
      simp [wordsFlat, List.append_assoc]
    have e2 : (data.drop 8).drop (8 * m) = data.drop (8 * (m + 1)) := by
      rw [List.drop_drop]
      congr 1
      omega
    rw [e1, e2]

/-- Helper: `Bitmap::unpack` assembled from a header parse and a word
loop run, without unfolding the 510-step loop. -/
theorem bitmap_unpack_eq (data i : List Nat) (h : BitmapHeader)
    (es : List BitmapEntry) (rest : List Nat)
    (h1 : BitmapHeader.unpack data = some (h, i))
    (h2 : unpackWords i [] bitmapNrWords = some (es, rest)) :
    Bitmap.unpack data = some (⟨h, es⟩, rest) := by
  unfold Bitmap.unpack
  rw [h1]
  change (match unpackWords i [] bitmapNrWords with
    | none => none
    | some (entries, rest2) => some ((⟨h, entries⟩ : Bitmap), rest2))
      = some ((⟨h, es⟩ : Bitmap), rest)
  rw [h2]

/-- Claim C3: `Bitmap::unpack` succeeds on every 4096-byte buffer,
decoding a 16-byte header and then 510 little-endian 64-bit words into
exactly 16320 two-bit entries, the lowest-addressed entry taken from the
least-significant bits of its word, with values 0, 1, 2 decoded as
`Small` and 3 as `Overflow`. -/
theorem c3_bitmap_unpack (data : List Nat) (hlen : data.length = 4096) :
    ∃ bm rest, Bitmap.unpack data = some (bm, rest) ∧
      bm.header = ⟨leNum (data.take 4), leNum ((data.drop 4).take 4),
                   leNum ((data.drop 8).take 8)⟩ ∧
      bm.entries.length = 16320 ∧
      ∀ k, k < 16320 →
        bm.entries[k]?
          = some (entryOf (leNum ((data.drop (16 + 8 * (k / 32))).take 8)) (k % 32)) := by
  have e1 : le_u32 data = some (leNum (data.take 4), data.drop 4) := by
    simp [le_u32]
    omega
  have e2 : le_u32 (data.drop 4) = some (leNum ((data.drop 4).take 4), data.drop 8) := by
    simp [le_u32, List.drop_drop, hlen]
  have e3 : le_u64 (data.drop 8) = some (leNum ((data.drop 8).take 8), data.drop 16) := by
    simp [le_u64, List.drop_drop, hlen]
  have hw : unpackWords (data.drop 16) [] bitmapNrWords
      = some ([] ++ wordsFlat (data.drop 16) bitmapNrWords,
              (data.drop 16).drop (8 * bitmapNrWords)) :=
    unpackWords_spec bitmapNrWords (data.drop 16) [] (by
      simp only [List.length_drop, bitmapNrWords, BLOCK_SIZE, hlen]
      omega)
  have hh : BitmapHeader.unpack data
      = some (⟨leNum (data.take 4), leNum ((data.drop 4).take 4),
               leNum ((data.drop 8).take 8)⟩, data.drop 16) := by
    simp only [BitmapHeader.unpack, e1, e2, e3]
  have hw2 : unpackWords (data.drop 16) [] bitmapNrWords
      = some (wordsFlat (data.drop 16) bitmapNrWords,
              (data.drop 16).drop (8 * bitmapNrWords)) := by
    rw [hw, List.nil_append]
  have hunpack : Bitmap.unpack data
      = some (⟨⟨leNum (data.take 4), leNum ((data.drop 4).take 4),
                leNum ((data.drop 8).take 8)⟩,
               wordsFlat (data.drop 16) bitmapNrWords⟩,
              (data.drop 16).drop (8 * bitmapNrWords)) :=
    bitmap_unpack_eq data (data.drop 16) _ _ _ hh hw2
  refine ⟨_, _, hunpack, rfl, ?_, ?_⟩
  · have := wordsFlat_length bitmapNrWords (data.drop 16)
    simpa [bitmapNrWords, BLOCK_SIZE] using this
  · intro k hk
    have hk2 : k < 32 * bitmapNrWords := by
      simp only [bitmapNrWords, BLOCK_SIZE]
      omega
    have := wordsFlat_getElem bitmapNrWords (data.drop 16) k hk2
    rw [this]
    have e4 : (data.drop 16).drop (8 * (k / 32)) = data.drop (16 + 8 * (k / 32)) := by
      rw [List.drop_drop]
    rw [e4]

/-- Witness for claim C3 on the all-zero 4096-byte buffer. -/
theorem c3_witness :
    ∃ bm rest, Bitmap.unpack (List.replicate 4096 0) = some (bm, rest) ∧
      bm.header = ⟨leNum ((List.replicate 4096 0).take 4),
                   leNum (((List.replicate 4096 0).drop 4).take 4),
                   leNum (((List.replicate 4096 0).drop 8).take 8)⟩ ∧
      bm.entries.length = 16320 ∧
      ∀ k, k < 16320 →
        bm.entries[k]?
          = some (entryOf
              (leNum (((List.replicate 4096 0).drop (16 + 8 * (k / 32))).take 8))
              (k % 32)) :=
  c3_bitmap_unpack (List.replicate 4096 0) (by rw [List.length_replicate])

/-! ## Space-map consistency over inc/dec histories (claim C1) -/

/-- Helper: `inOpRange` as a proposition. -/
theorem inOpRange_iff (b len j : Nat) :
    inOpRange b len j = true ↔ (b ≤ j ∧ j < b + len) := by
  simp [inOpRange]

/-- Helper: how `countP` changes under `set`, in additive form. -/
theorem countP_set_add (p : Nat → Bool) :
    ∀ (l : List Nat) (i : Nat) (c v : Nat), l[i]? = some c →
      (l.set i v).countP p + (if p c then 1 else 0)
        = l.countP p + (if p v then 1 else 0) := by
  intro l
  induction l with
  | nil =>
    intro i c v h
    simp at h
  | cons a t ih =>
    intro i c v h
    cases i with
    | zero =>
      simp only [List.getElem?_cons_zero, Option.some.injEq] at h
      subst h
      simp [List.countP_cons]
      omega
    | succ i2 =>
      simp only [List.getElem?_cons_succ] at h
      have := ih i2 c v h
      simp [List.countP_cons]
      omega

/-- Helper: one `inc` step of the full map — length, `nr_allocated`
invariant, and the pointwise count change. -/
theorem full_incOne_spec (sm sm2 : CoreSpaceMapFull) (b : Nat)
    (h : sm.incOne b = some sm2) :
    sm2.counts.length = sm.counts.length ∧
    (sm.nr_allocated = sm.counts.countP (fun c => c != 0) →
      sm2.nr_allocated = sm2.counts.countP (fun c => c != 0)) ∧
    ∀ j cj, sm.counts[j]? = some cj →
      sm2.counts[j]? = some (if j = b then cj + 1 else cj) := by
  cases hc : sm.counts[b]? with
  | none =>
    simp only [CoreSpaceMapFull.incOne, hc] at h
    exact Option.noConfusion h
  | some c =>
    simp only [CoreSpaceMapFull.incOne, hc, Option.some.injEq] at h
    subst h
    have hb : b < sm.counts.length := by
      rw [← getElem?_isSome_iff]
      simp [hc]
    refine ⟨by simp, ?_, ?_⟩
    · intro hinv
      have hcount := countP_set_add (fun x => x != 0) sm.counts b c (c + 1) hc
      by_cases hc0 : c = 0
      · subst hc0
        simp at hcount
        simp [hinv]
        omega
      · have h1 : (c != 0) = true := by simpa using hc0
        simp [h1] at hcount
        simp [hc0]
        omega
    · intro j cj hj
      by_cases hjb : j = b
      · subst hjb
        rw [hc] at hj
        cases hj
        rw [if_pos rfl]
        exact List.getElem?_set_eq_of_lt (c + 1) hb
      · rw [if_neg hjb]
        rw [List.getElem?_set_ne (fun hh => hjb hh.symm)]
        exact hj

/-- Helper: one `dec` step of the full map — length, `nr_allocated`
invariant, the pointwise count change, and the underflow guard. -/
theorem full_decOne_spec (sm sm2 : CoreSpaceMapFull) (b : Nat)
    (h : sm.decOne b = some sm2) :
    sm2.counts.length = sm.counts.length ∧
    (sm.nr_allocated = sm.counts.countP (fun c => c != 0) →
      sm2.nr_allocated = sm2.counts.countP (fun c => c != 0)) ∧
    ∀ j cj, sm.counts[j]? = some cj →
      sm2.counts[j]? = some (if j = b then cj - 1 else cj) ∧
      (j = b → 1 ≤ cj) := by
  cases hc : sm.counts[b]? with
  | none =>
    simp only [CoreSpaceMapFull.decOne, hc] at h
    exact Option.noConfusion h
  | some c =>
    by_cases hc0 : c = 0
    · subst hc0
      simp [CoreSpaceMapFull.decOne, hc] at h
    · simp only [CoreSpaceMapFull.decOne, hc, if_neg hc0, Option.some.injEq] at h
      subst h
      have hb : b < sm.counts.length := by
        rw [← getElem?_isSome_iff]
        simp [hc]
      have h1 : (c != 0) = true := by simpa using hc0
      refine ⟨by simp, ?_, ?_⟩
      · intro hinv
        have hcount := countP_set_add (fun x => x != 0) sm.counts b c (c - 1) hc
        have hmem : 1 ≤ sm.counts.countP (fun x => x != 0) :=
          List.countP_pos_iff.mpr ⟨c, List.getElem?_mem hc, h1⟩
        by_cases hc1 : c = 1
        · subst hc1
          simp at hcount
          simp [hinv]
          omega
        · have h2 : (c - 1 != 0) = true := by
            have hne : c - 1 ≠ 0 := by omega
            simpa using hne
          simp [h1, h2] at hcount
          simp [hc1]
          omega
      · intro j cj hj
        by_cases hjb : j = b
        · subst hjb
          rw [hc] at hj
          cases hj
          rw [if_pos rfl]
          exact ⟨List.getElem?_set_eq_of_lt (c - 1) hb, fun _ => by omega⟩
        · rw [if_neg hjb]
          refine ⟨?_, fun hh => absurd hh hjb⟩
          rw [List.getElem?_set_ne (fun hh => hjb hh.symm)]
          exact hj

/-- Helper: the `inc` loop of the full map over a range — length,
`nr_allocated` invariant, and the pointwise count change. -/
theorem full_incFrom_spec (len : Nat) :
    ∀ (sm sm2 : CoreSpaceMapFull) (b : Nat), sm.incFrom b len = some sm2 →
      sm2.counts.length = sm.counts.length ∧
      (sm.nr_allocated = sm.counts.countP (fun c => c != 0) →
        sm2.nr_allocated = sm2.counts.countP (fun c => c != 0)) ∧
      ∀ j cj, sm.counts[j]? = some cj →
        sm2.counts[j]? = some (if b ≤ j ∧ j < b + len then cj + 1 else cj) := by
  induction len with
  | zero =>
    intro sm sm2 b h
    cases h
    refine ⟨rfl, fun hi => hi, ?_⟩
    intro j cj hj
    rw [if_neg (by omega)]
    exact hj
  | succ n ih =>
    intro sm sm2 b h
    unfold CoreSpaceMapFull.incFrom at h
    cases h1 : sm.incOne b with
    | none =>
      rw [h1] at h
      exact Option.noConfusion h
    | some sm1 =>
      rw [h1] at h
      obtain ⟨hlen1, hinv1, hpt1⟩ := full_incOne_spec sm sm1 b h1
      obtain ⟨hlen2, hinv2, hpt2⟩ := ih sm1 sm2 (b + 1) h
      refine ⟨hlen2.trans hlen1, fun hi => hinv2 (hinv1 hi), ?_⟩
      intro j cj hj
      have hj1 := hpt1 j cj hj
      have hj2 := hpt2 j _ hj1
      rw [hj2]
      have hval : (if b + 1 ≤ j ∧ j < b + 1 + n then (if j = b then cj + 1 else cj) + 1
              else (if j = b then cj + 1 else cj))
          = (if b ≤ j ∧ j < b + (n + 1) then cj + 1 else cj) := by
        split_ifs <;> omega
      rw [hval]

/-- Helper: the `dec` loop of the full map over a range — length,
`nr_allocated` invariant, pointwise count change, and underflow guard. -/
theorem full_decFrom_spec (len : Nat) :
    ∀ (sm sm2 : CoreSpaceMapFull) (b : Nat), sm.decFrom b len = some sm2 →
      sm2.counts.length = sm.counts.length ∧
      (sm.nr_allocated = sm.counts.countP (fun c => c != 0) →
        sm2.nr_allocated = sm2.counts.countP (fun c => c != 0)) ∧
      ∀ j cj, sm.counts[j]? = some cj →
        sm2.counts[j]? = some (if b ≤ j ∧ j < b + len then cj - 1 else cj) ∧
        (b ≤ j ∧ j < b + len → 1 ≤ cj) := by
  induction len with
  | zero =>
    intro sm sm2 b h
    cases h
    refine ⟨rfl, fun hi => hi, ?_⟩
    intro j cj hj
    rw [if_neg (by omega)]
    exact ⟨hj, by omega⟩
  | succ n ih =>
    intro sm sm2 b h
    unfold CoreSpaceMapFull.decFrom at h
    cases h1 : sm.decOne b with
    | none =>
      rw [h1] at h
      exact Option.noConfusion h
    | some sm1 =>
      rw [h1] at h
      obtain ⟨hlen1, hinv1, hpt1⟩ := full_decOne_spec sm sm1 b h1
      obtain ⟨hlen2, hinv2, hpt2⟩ := ih sm1 sm2 (b + 1) h
      refine ⟨hlen2.trans hlen1, fun hi => hinv2 (hinv1 hi), ?_⟩
      intro j cj hj
      obtain ⟨hj1, hg1⟩ := hpt1 j cj hj
      obtain ⟨hj2, hg2⟩ := hpt2 j _ hj1
      constructor
      · rw [hj2]
        have hval : (if b + 1 ≤ j ∧ j < b + 1 + n then (if j = b then cj - 1 else cj) - 1
                else (if j = b then cj - 1 else cj))
            = (if b ≤ j ∧ j < b + (n + 1) then cj - 1 else cj) := by
          split_ifs <;> omega
        rw [hval]
      · intro hrange
        by_cases hjb : j = b
        · exact hg1 hjb
        · have := hg2 ⟨by omega, by omega⟩
          rw [if_neg hjb] at this
          exact this

/-- Helper: one space-map operation changes each in-bounds count by its
signed delta and preserves length and the `nr_allocated` invariant. -/
theorem applyOp_spec (sm sm2 : CoreSpaceMapFull) (op : SmOp)
    (h : applyOp sm op = some sm2) :
    sm2.counts.length = sm.counts.length ∧
    (sm.nr_allocated = sm.counts.countP (fun c => c != 0) →
      sm2.nr_allocated = sm2.counts.countP (fun c => c != 0)) ∧
    ∀ (j cj : Nat), sm.counts[j]? = some cj →
      ∃ cj2 : Nat, sm2.counts[j]? = some cj2 ∧ (cj2 : Int) = (cj : Int) + opDelta op j := by
  cases op with
  | inc b len =>
    obtain ⟨h1, h2, h3⟩ := full_incFrom_spec len sm sm2 b h
    refine ⟨h1, h2, ?_⟩
    intro j cj hj
    refine ⟨_, h3 j cj hj, ?_⟩
    by_cases hin : b ≤ j ∧ j < b + len
    · rw [if_pos hin]
      have hrange : inOpRange b len j = true := (inOpRange_iff b len j).mpr hin
      simp [opDelta, hrange]
    · rw [if_neg hin]
      have hrange : ¬ inOpRange b len j = true := fun hh =>
        hin ((inOpRange_iff b len j).mp hh)
      simp [opDelta, hrange]
  | dec b len =>
    obtain ⟨h1, h2, h3⟩ := full_decFrom_spec len sm sm2 b h
    refine ⟨h1, h2, ?_⟩
    intro j cj hj
    obtain ⟨hval, hguard⟩ := h3 j cj hj
    refine ⟨_, hval, ?_⟩
    by_cases hin : b ≤ j ∧ j < b + len
    · rw [if_pos hin]
      have hrange : inOpRange b len j = true := (inOpRange_iff b len j).mpr hin
      have h1c := hguard hin
      simp [opDelta, hrange]
      omega
    · rw [if_neg hin]
      have hrange : ¬ inOpRange b len j = true := fun hh =>
        hin ((inOpRange_iff b len j).mp hh)
      simp [opDelta, hrange]

/-- Helper: a successful run of a whole operation sequence preserves
length and the `nr_allocated` invariant, and shifts each in-bounds count
by the cumulative history. -/
theorem applyOps_spec (ops : List SmOp) :
    ∀ sm sm2, applyOps sm ops = some sm2 →
      sm2.counts.length = sm.counts.length ∧
      (sm.nr_allocated = sm.counts.countP (fun c => c != 0) →
        sm2.nr_allocated = sm2.counts.countP (fun c => c != 0)) ∧
      ∀ (j cj : Nat), sm.counts[j]? = some cj →
        ∃ cj2 : Nat, sm2.counts[j]? = some cj2 ∧ (cj2 : Int) = (cj : Int) + cumul ops j := by
  induction ops with
  | nil =>
    intro sm sm2 h
    cases h
    refine ⟨rfl, fun hi => hi, ?_⟩
    intro j cj hj
    exact ⟨cj, hj, by simp [cumul]⟩
  | cons op ops ih =>
    intro sm sm2 h
    unfold applyOps at h
    cases h1 : applyOp sm op with
    | none =>
      rw [h1] at h
      exact Option.noConfusion h
    | some sm1 =>
      rw [h1] at h
      obtain ⟨l1, i1, p1⟩ := applyOp_spec sm sm1 op h1
      obtain ⟨l2, i2, p2⟩ := ih sm1 sm2 h
      refine ⟨l2.trans l1, fun hi => i2 (i1 hi), ?_⟩
      intro j cj hj
      obtain ⟨c1, hc1, hd1⟩ := p1 j cj hj
      obtain ⟨c2, hc2, hd2⟩ := p2 j c1 hc1
      refine ⟨c2, hc2, ?_⟩
      have hcum : cumul (op :: ops) j = opDelta op j + cumul ops j := by
        simp [cumul]
      rw [hcum]
      omega

/-- Helper: the fresh map has no nonzero count. -/
theorem countP_ne_zero_replicate (n : Nat) :
    (List.replicate n 0).countP (fun c => c != 0) = 0 := by
  induction n with
  | zero => rfl
  | succ m ih => simp [List.replicate_succ, List.countP_cons, ih]

/-- Claim C1: starting from a fresh in-core space map with `n` blocks,
after any successfully executed sequence of `inc`/`dec` operations whose
indices stay below `n`, `nr_allocated` equals the number of blocks whose
reference count is nonzero, and `get(b)` returns exactly the cumulative
number of increments minus decrements applied to ranges containing `b`. -/
theorem c1_space_map_history (n : Nat) (ops : List SmOp) (sm : CoreSpaceMapFull)
    (_hbounds : opsInBounds n ops)
    (hrun : applyOps (CoreSpaceMapFull.new n) ops = some sm) :
    sm.counts.length = n ∧
    sm.nr_allocated = sm.counts.countP (fun c => c != 0) ∧
    ∀ b, b < n → ∃ c : Nat, sm.get b = some c ∧ (c : Int) = cumul ops b := by
  obtain ⟨hl, hi, hp⟩ := applyOps_spec ops (CoreSpaceMapFull.new n) sm hrun
  refine ⟨by simpa [CoreSpaceMapFull.new] using hl, ?_, ?_⟩
  · apply hi
    simp [CoreSpaceMapFull.new, countP_ne_zero_replicate]
  · intro b hb
    have h0 : (CoreSpaceMapFull.new n).counts[b]? = some 0 := by
      simp [CoreSpaceMapFull.new, List.getElem?_replicate, hb]
    obtain ⟨c, hc, hd⟩ := hp b 0 h0
    exact ⟨c, hc, by simpa using hd⟩

/-- Witness for claim C1: two blocks, `inc(0, 2)` then `dec(1, 1)`,
ending with counts `[1, 0]` and one allocated block. -/
theorem c1_witness :
    opsInBounds 2 [SmOp.inc 0 2, SmOp.dec 1 1] ∧
    ((CoreSpaceMapFull.mk [1, 0] 1).counts.length = 2 ∧
     (CoreSpaceMapFull.mk [1, 0] 1).nr_allocated
        = (CoreSpaceMapFull.mk [1, 0] 1).counts.countP (fun c => c != 0) ∧
     ∀ b, b < 2 → ∃ c : Nat, (CoreSpaceMapFull.mk [1, 0] 1).get b = some c ∧
        (c : Int) = cumul [SmOp.inc 0 2, SmOp.dec 1 1] b) :=
  ⟨by
    unfold opsInBounds
    decide,
   c1_space_map_history 2 [SmOp.inc 0 2, SmOp.dec 1 1]
     (CoreSpaceMapFull.mk [1, 0] 1)
     (by
       unfold opsInBounds
       decide) rfl⟩
